import Mathlib

/-!
Verification of `scripts/util.py` (slurm-gcp): a shallow embedding of the
batched asynchronous-operation executor, the single-request retry loop,
the paginated listing mergers, the memoizing lookup caches, the node-name
parser, and the instance-template selection, together with theorems that
settle the specification claims about them.

Conventions of the embedding:
- remote round trips are scripted: a request carries a function (or list)
  giving the outcome of each successive `execute()` call;
- Python exceptions become explicit constructors / `Except` values;
- unbounded `while` loops take a fuel parameter, `none` meaning the loop
  was still running when the fuel ran out;
- `sleep(wait)` is recorded as the value `wait` in a list of sleeps.
-/

/-- Substring containment, modelling the Python `in` operator on strings
(`"Rate Limit Exceeded" in str(e)`, util.py line 200 and 224). -/
def strContainsSub (hay pat : List Char) : Bool :=
  (List.range (hay.length + 1)).any (fun k => pat.isPrefixOf (hay.drop k))

/-- `pat in hay` on Python strings. -/
def strContains (hay pat : String) : Bool :=
  strContainsSub hay.data pat.data

/-- util.py lines 219-224, `retry_exception`: an exception is retryable in
`batch_execute` iff its text contains one of the two transient markers. -/
def retry_exception (exc : String) : Bool :=
  strContains exc "Rate Limit Exceeded" || strContains exc "Quota Exceeded"

/-- One scripted behaviour of `request.execute()`: return a response, raise a
`googleapiclient.errors.HttpError` with the given text, raise `socket.timeout`,
or raise any other exception. Responses are modelled as naturals. -/
inductive ExecAttempt where
  | success (resp : Nat)
  | httpError (msg : String)
  | sockTimeout
  | otherError (msg : String)
deriving DecidableEq, Repr

/-- How `ensure_execute` comes back to its caller: with a response, by falling
off the end of the loop (Python returns `None`), or by raising. -/
inductive ExecResult where
  | ok (resp : Nat)
  | retNone
  | raised (msg : String)
deriving DecidableEq, Repr

/-- util.py lines 189-217, `ensure_execute`, one loop iteration per scripted
attempt.  `wait` is the current backoff value (starts at 1, `min(wait*2, 60)`
on each rate-limit retry, util.py line 202), `sleeps` accumulates the
performed `sleep(wait)` calls in reverse.  A `socket.timeout` handler merely
logs (line 210) and then control reaches the `break` on line 216, so the loop
exits and the function returns `None`.  Returns `none` if the script is
exhausted with the loop still running. -/
def ensure_execute_go : List ExecAttempt → Nat → List Nat → Option (ExecResult × List Nat)
  | [], _, _ => none
  | a :: rest, wait, sleeps =>
    match a with
    | .success r => some (.ok r, sleeps.reverse)
    | .httpError m =>
      if strContains m "Rate Limit Exceeded" then
        ensure_execute_go rest (min (wait * 2) 60) (min (wait * 2) 60 :: sleeps)
      else
        some (.raised m, sleeps.reverse)
    | .sockTimeout => some (.retNone, sleeps.reverse)
    | .otherError m => some (.raised m, sleeps.reverse)

/-- util.py lines 189-217, `ensure_execute` run against a scripted request:
the final outcome together with the list of backoff sleeps performed. -/
def ensure_execute (attempts : List ExecAttempt) : Option (ExecResult × List Nat) :=
  ensure_execute_go attempts 1 []

/-- Outcome of one batched round trip for a single request, as delivered to
`batch_callback` (util.py line 252): either a response or an exception. -/
inductive BatchOutcome where
  | resp (r : Nat)
  | err (msg : String)

/-- A worklist entry of `batch_execute`: request id, number of round trips
already taken, and the scripted outcome of each successive round trip. -/
def BatchEntry : Type := Nat × Nat × (Nat → BatchOutcome)

/-- Python error text raised by `not retry_cb(resp)` when `retry_cb` is
`None` (util.py line 260). -/
def typeErrorMsg : String := "TypeError: NoneType object is not callable"

/-- util.py lines 252-262, `batch_callback`, applied in order to every request
of one batch round trip.  For an exception: a non-retryable error moves the
request to `failed`, a retryable one leaves it pending (lines 253-257).  For a
response the guard on line 260 reads `retry_cb is not None or not
retry_cb(resp)`: when a callback is supplied the disjunction short-circuits to
true, so the request is moved to `done` and the callback is never invoked;
when it is `None`, evaluating `not retry_cb(resp)` calls `None(resp)` and
raises `TypeError`, which propagates out of the batch round trip. -/
def run_callbacks (retry_cb : Option (Nat → Bool)) :
    List BatchEntry → List (Nat × Nat) → List (Nat × String) →
    Except String (List BatchEntry × List (Nat × Nat) × List (Nat × String))
  | [], done, failed => .ok ([], done, failed)
  | (rid, k, f) :: rest, done, failed =>
    match f k with
    | .err m =>
      if retry_exception m then
        (run_callbacks retry_cb rest done failed).map
          (fun wdf => ((rid, k + 1, f) :: wdf.1, wdf.2))
      else
        run_callbacks retry_cb rest done (failed ++ [(rid, m)])
    | .resp r =>
      match retry_cb with
      | some _ => run_callbacks retry_cb rest (done ++ [(rid, r)]) failed
      | none => .error typeErrorMsg

/-- util.py lines 264-269, the `while requests` loop of `batch_execute`: form
a batch from the first `BATCH_LIMIT = 1000` pending requests in stable order,
run its callbacks, and repeat until the worklist drains (or the fuel runs
out, modelling a loop that is still running). -/
def batch_execute_go (retry_cb : Option (Nat → Bool)) :
    Nat → List BatchEntry → List (Nat × Nat) → List (Nat × String) →
    Option (Except String (List (Nat × Nat) × List (Nat × String)))
  | 0, _, _, _ => none
  | _ + 1, [], done, failed => some (.ok (done, failed))
  | fuel + 1, w, done, failed =>
    match run_callbacks retry_cb (w.take 1000) done failed with
    | .error e => some (.error e)
    | .ok (kept, d, fl) => batch_execute_go retry_cb fuel (kept ++ w.drop 1000) d fl

/-- util.py lines 245-270, `batch_execute` over requests keyed by position
(`dict(enumerate(requests))`, line 248): returns `(done, failed)` keyed by
request id, or the exception that escaped a batch round trip. -/
def batch_execute (fuel : Nat) (requests : List (Nat × (Nat → BatchOutcome)))
    (retry_cb : Option (Nat → Bool)) :
    Option (Except String (List (Nat × Nat) × List (Nat × String))) :=
  batch_execute_go retry_cb fuel (requests.map (fun rf => (rf.1, 0, rf.2))) [] []

/-- C2 scenario, request A: every round trip fails with a permanent error. -/
def reqA : Nat → BatchOutcome := fun _ => .err "Internal Error"

/-- C2 scenario, request B: the first two round trips fail with a rate-limit
error, later ones succeed. -/
def reqB : Nat → BatchOutcome := fun k => if k < 2 then .err "Rate Limit Exceeded" else .resp 11

/-- C2 scenario, request C: the first round trip succeeds. -/
def reqC : Nat → BatchOutcome := fun _ => .resp 12

lemma min_pow_wait (k : Nat) : min (min (2 ^ k) 60 * 2) 60 = min (2 ^ (k + 1)) 60 := by
  rcases le_total (2 ^ k) 60 with h | h
  · rw [min_eq_left h, pow_succ]
  · have h2 : (60 : Nat) ≤ 2 ^ (k + 1) :=
      le_trans h (Nat.pow_le_pow_right (by norm_num) (Nat.le_succ k))
    rw [min_eq_right h, min_eq_right h2, min_eq_right (by norm_num : (60 : Nat) ≤ 60 * 2)]

lemma ensure_execute_go_rl (r : Nat) :
    ∀ (n k : Nat) (acc : List Nat),
      ensure_execute_go (List.replicate n (.httpError "Rate Limit Exceeded") ++ [.success r])
        (min (2 ^ k) 60) acc
      = some (.ok r, acc.reverse ++ (List.range n).map (fun j => min (2 ^ (k + 1 + j)) 60)) := by
  intro n
  induction n with
  | zero => intro k acc; simp [ensure_execute_go]
  | succ n ih =>
    intro k acc
    rw [List.replicate_succ]
    simp only [List.cons_append, ensure_execute_go, List.append_eq]
    rw [if_pos (by decide : strContains "Rate Limit Exceeded" "Rate Limit Exceeded" = true),
        min_pow_wait k, ih (k + 1) (min (2 ^ (k + 1)) 60 :: acc)]
    simp [List.range_succ_eq_map, List.reverse_cons, List.append_assoc, List.map_map]
    intro a _
    have hx : k + 1 + 1 + a = k + 1 + (a + 1) := by omega
    rw [hx]

/-- C1: refuted as stated.  With a retry callback supplied (here the constant
`true` callback, so the response is always "still pending"), `batch_execute`
nevertheless records the request in `done` on its very first successful round
trip and terminates: the guard `retry_cb is not None or not retry_cb(resp)`
(util.py line 260) short-circuits to true, so the request is never left in the
worklist and the callback is never consulted. -/
theorem batch_execute_retrycb_done_immediately :
    batch_execute 4 [(0, fun _ => .resp 7)] (some (fun _ => true)) =
      some (.ok ([(0, 7)], [])) := rfl

/-- C2: refuted as stated.  In the scripted scenario (A permanently failing,
B rate-limited twice then succeeding, C succeeding immediately) with no retry
callback, `batch_execute` does not return `done = {B, C}`, `failed = {A}`:
handling C's successful response evaluates `not retry_cb(resp)` with
`retry_cb = None` (util.py line 260) and raises `TypeError`, which escapes
through `ensure_execute` and aborts the whole call. -/
theorem batch_execute_no_retrycb_typeerror :
    batch_execute 9 [(0, reqA), (1, reqB), (2, reqC)] none =
      some (.error typeErrorMsg) := rfl

/-- C3: refuted as stated.  A request whose first `execute()` raises
`socket.timeout` and whose second attempt would succeed is not retried: the
timeout handler (util.py line 210) falls through to the `break` on line 216,
so `ensure_execute` exits the loop and returns `None`, never reaching the
successful second attempt and performing no sleep. -/
theorem ensure_execute_timeout_returns_none :
    ensure_execute [.sockTimeout, .success 5] = some (.retNone, []) := rfl

/-- C4: counterexample to the claim as stated.  "Quota Exceeded" is a
transient error by the code's own classifier `retry_exception` (util.py line
222), yet `ensure_execute` propagates it to the caller on the first attempt
instead of sleeping and retrying: its retry test (line 200) looks only for
"Rate Limit Exceeded". -/
theorem ensure_execute_quota_raises :
    retry_exception "Quota Exceeded" = true ∧
    ensure_execute [.httpError "Quota Exceeded", .success 5] =
      some (.raised "Quota Exceeded", []) := by
  constructor
  · decide
  · rfl

/-- C4 amended: for errors whose text contains "Rate Limit Exceeded",
`ensure_execute` sleeps `min(2^attempt, 60)` time units (attempt starting at
1, doubling each retry, capped at 60) and retries indefinitely, so a request
failing that way `n` times and then succeeding returns its successful response
after exactly those `n` backoff sleeps; an `HttpError` without that marker
(in particular a quota-exceeded error) is raised to the caller immediately
with no sleep. -/
theorem ensure_execute_ratelimit_backoff :
    (∀ (n r : Nat),
      ensure_execute (List.replicate n (.httpError "Rate Limit Exceeded") ++ [.success r])
        = some (.ok r, (List.range n).map (fun j => min (2 ^ (j + 1)) 60))) ∧
    (∀ (m : String) (rest : List ExecAttempt), strContains m "Rate Limit Exceeded" = false →
      ensure_execute (.httpError m :: rest) = some (.raised m, [])) := by
  constructor
  · intro n r
    have h := ensure_execute_go_rl r n 0 []
    simp only [pow_zero, min_eq_left (by norm_num : (1 : Nat) ≤ 60)] at h
    rw [ensure_execute, h]
    simp only [List.reverse_nil, List.nil_append]
    congr 1
    congr 1
    apply List.map_congr_left
    intro a _
    have hx : 0 + 1 + a = a + 1 := by omega
    rw [hx]
  · intro m rest hm
    simp [ensure_execute, ensure_execute_go, hm]

/-- C4 amended, witness: three rate-limit failures then success yields the
response after sleeps 2, 4, 8; a quota error is raised at once. -/
theorem ensure_execute_ratelimit_backoff_witness :
    ensure_execute (List.replicate 3 (.httpError "Rate Limit Exceeded") ++ [.success 9])
        = some (.ok 9, (List.range 3).map (fun j => min (2 ^ (j + 1)) 60)) ∧
    ensure_execute [.httpError "Quota Exceeded"] = some (.raised "Quota Exceeded", []) :=
  ⟨ensure_execute_ratelimit_backoff.1 3 9,
   ensure_execute_ratelimit_backoff.2 "Quota Exceeded" [] (by decide)⟩

/-- An instance listed by one page of `instances.aggregatedList` (fields
requested on util.py line 458): name and zone. -/
structure InstEntry where
  name : String
  zone : String
deriving DecidableEq, Repr

/-- One page of the aggregated instance listing: `result['items']` as a list
of (scope key, instances) pairs in iteration order. -/
def InstPage : Type := List (String × List InstEntry)

/-- Python dict assignment `d[k] = v` on an insertion-ordered dict: replace
the value in place when the key exists, append otherwise. -/
def dictInsert {β : Type} (d : List (String × β)) (k : String) (v : β) :
    List (String × β) :=
  if d.any (fun kv => kv.1 == k) then
    d.map (fun kv => if kv.1 == k then (k, v) else kv)
  else d ++ [(k, v)]

/-- util.py lines 464-468: the dict comprehension building `instances` from
one page, `inst['name']: inst['zone']` over the chained zone lists. -/
def pageInstances (page : InstPage) : List (String × String) :=
  ((page.map Prod.snd).flatten).foldl (fun d inst => dictInsert d inst.name inst.zone) []

/-- util.py lines 455-470, the `instance_zones` pagination loop: `instances`
is rebound (not merged) on every page, and the final binding is returned;
with zero pages the name is unbound (`none`). -/
def instance_zones (pages : List InstPage) : Option (List (String × String)) :=
  pages.foldl (fun _ p => some (pageInstances p)) none

/-- A machine type listed by one page of `machineTypes.aggregatedList`
(fields requested on util.py line 480). -/
structure MachEntry where
  name : String
  zone : String
  guestCpus : Nat
  memoryMb : Nat
deriving DecidableEq, Repr

/-- One page of the aggregated machine-type listing: scope key ↦ optional
`machineTypes` list; `none` models a scope entry without the key, skipped by
the guard on util.py line 490. -/
def MachPage : Type := List (String × Option (List MachEntry))

/-- util.py line 495: `machines[name][zone] = machine` on a
`defaultdict(dict)`. -/
def machInsert (d : List (String × List (String × MachEntry))) (m : MachEntry) :
    List (String × List (String × MachEntry)) :=
  dictInsert d m.name (dictInsert ((d.lookup m.name).getD []) m.zone m)

/-- util.py lines 487-495: fold one page into the accumulated `machines`. -/
def pageMachines (d : List (String × List (String × MachEntry))) (page : MachPage) :
    List (String × List (String × MachEntry)) :=
  ((page.filterMap Prod.snd).flatten).foldl machInsert d

/-- util.py lines 477-498, `machine_types`: accumulate
`machines[name][zone]` across every page. -/
def machine_types (pages : List MachPage) : List (String × List (String × MachEntry)) :=
  pages.foldl pageMachines []

/-- Two-page instance listing: the first page holds i1, the second i2. -/
def instPage1 : InstPage := [("zones/z1", [⟨"i1", "z1"⟩])]

/-- Second page of the two-page instance listing. -/
def instPage2 : InstPage := [("zones/z2", [⟨"i2", "z2"⟩])]

/-- Two-page machine-type listing, first page. -/
def machPage1 : MachPage := [("zones/z1", some [⟨"m1", "z1", 4, 8192⟩])]

/-- Two-page machine-type listing, second page. -/
def machPage2 : MachPage := [("zones/z2", some [⟨"m2", "z2", 8, 16384⟩])]

/-- C5: refuted as stated.  On a two-page listing, `instance_zones` returns
only the final page's instances — the comprehension on util.py lines 464-468
rebinds `instances` on every iteration instead of merging — so i1 from the
first page is lost; `machine_types` (lines 477-498) does merge both pages. -/
theorem instance_zones_last_page_only :
    instance_zones [instPage1, instPage2] = some [("i2", "z2")] ∧
    machine_types [machPage1, machPage2] =
      [("m1", [("z1", ⟨"m1", "z1", 4, 8192⟩)]), ("m2", [("z2", ⟨"m2", "z2", 8, 16384⟩)])] := by
  exact ⟨rfl, rfl⟩

/-- `functools.lru_cache(maxsize=1)` (the decorator on util.py lines 454 and
477): the cache retains only the most recently used argument tuple; a call
fetches anew unless its key equals the cached one.  Returns the fetch trace:
the keys whose calls performed a remote fetch, in order. -/
def cache1Trace {κ ν : Type} [DecidableEq κ] (f : κ → ν) :
    Option (κ × ν) → List κ → List κ
  | _, [] => []
  | none, k :: ks => k :: cache1Trace f (some (k, f k)) ks
  | some (k0, v0), k :: ks =>
    if k = k0 then cache1Trace f (some (k0, v0)) ks
    else k :: cache1Trace f (some (k, f k)) ks

/-- `functools.lru_cache(maxsize=None)` (the decorator on util.py lines 420
and 542): an unbounded memo table; a call fetches exactly when its key is not
yet in the table.  Returns the fetch trace. -/
def cacheNoneTrace {κ ν : Type} [DecidableEq κ] (f : κ → ν) :
    List (κ × ν) → List κ → List κ
  | _, [] => []
  | tbl, k :: ks =>
    if k ∈ tbl.map Prod.fst then cacheNoneTrace f tbl ks
    else k :: cacheNoneTrace f ((k, f k) :: tbl) ks

/-- The memoized `Lookup.instance_zones` (util.py lines 454-455): cached by
`lru_cache(maxsize=1)` keyed on the `(project, cluster_name)` argument tuple.
`fetch` scripts what the paginated listing would return for a key; the result
is the trace of keys that caused a remote fetch. -/
def instance_zones_fetch_trace
    (fetch : String × String → Option (List (String × String)))
    (calls : List (String × String)) : List (String × String) :=
  cache1Trace fetch none calls

/-- C6: counterexample to the claim as stated.  Interleaving calls with two
distinct `(project, clusterName)` tuples fetches on every call — the first
tuple is fetched twice — because `instance_zones` is cached with
`lru_cache(maxsize=1)`, not an unbounded cache. -/
theorem instance_zones_cache_evicts :
    instance_zones_fetch_trace (fun _ => none)
        [("p1", "c1"), ("p2", "c2"), ("p1", "c1")] =
      [("p1", "c1"), ("p2", "c2"), ("p1", "c1")] ∧
    (instance_zones_fetch_trace (fun _ => none)
        [("p1", "c1"), ("p2", "c2"), ("p1", "c1")]).count ("p1", "c1") = 2 := by
  exact ⟨rfl, rfl⟩

lemma cacheNoneTrace_nodup_go {κ ν : Type} [DecidableEq κ] (f : κ → ν) :
    ∀ (calls : List κ) (tbl : List (κ × ν)),
      (cacheNoneTrace f tbl calls).Nodup ∧
      ∀ k ∈ cacheNoneTrace f tbl calls, k ∉ tbl.map Prod.fst := by
  intro calls
  induction calls with
  | nil => intro tbl; simp [cacheNoneTrace]
  | cons k ks ih =>
    intro tbl
    by_cases hk : k ∈ tbl.map Prod.fst
    · simpa [cacheNoneTrace, hk] using ih tbl
    · have h2 := ih ((k, f k) :: tbl)
      simp only [cacheNoneTrace, if_neg hk]
      refine ⟨List.nodup_cons.mpr ⟨fun hc => ?_, h2.1⟩, ?_⟩
      · have h3 := h2.2 k hc
        rw [List.map_cons, List.mem_cons] at h3
        exact h3 (Or.inl rfl)
      · intro x hx
        rcases List.mem_cons.mp hx with rfl | hx2
        · exact hk
        · have h3 := h2.2 x hx2
          rw [List.map_cons, List.mem_cons] at h3
          exact fun hc => h3 (Or.inr hc)

lemma cache1Trace_destutter_go {κ ν : Type} [DecidableEq κ] (f : κ → ν) :
    ∀ (ks : List κ) (k : κ) (v : ν),
      List.destutter' Ne k ks = k :: cache1Trace f (some (k, v)) ks := by
  intro ks
  induction ks with
  | nil => intro k v; simp [List.destutter', cache1Trace]
  | cons b ks ih =>
    intro k v
    by_cases hb : b = k
    · subst hb
      rw [List.destutter'_cons_neg ks (fun h => h rfl)]
      have hred : cache1Trace f (some (b, v)) (b :: ks) = cache1Trace f (some (b, v)) ks := by
        show (if b = b then cache1Trace f (some (b, v)) ks
          else b :: cache1Trace f (some (b, f b)) ks) = cache1Trace f (some (b, v)) ks
        rw [if_pos rfl]
      rw [hred]
      exact ih b v
    · rw [List.destutter'_cons_pos ks (fun h => hb h.symm)]
      show k :: List.destutter' Ne b ks = k :: cache1Trace f (some (k, v)) (b :: ks)
      rw [ih b (f b)]
      show k :: b :: cache1Trace f (some (b, f b)) ks =
        k :: if b = k then cache1Trace f (some (k, v)) ks else b :: cache1Trace f (some (b, f b)) ks
      rw [if_neg hb]

/-- C6 amended: the memoized lookups keyed by an unbounded cache
(`_node_parts`, `template_props`, `lru_cache(maxsize=None)`) fetch each
distinct argument tuple at most once — their fetch trace has no duplicates —
while `instance_zones` and `machine_types` use `lru_cache(maxsize=1)`, whose
fetch trace is the call sequence with consecutive repeats collapsed: a call
fetches exactly when its key differs from the immediately preceding call's
key, so alternating between two distinct tuples refetches every time. -/
theorem cache_fetch_trace_spec {κ ν : Type} [DecidableEq κ] (f : κ → ν) :
    (∀ calls : List κ, (cacheNoneTrace f [] calls).Nodup) ∧
    (∀ calls : List κ, cache1Trace f none calls = calls.destutter Ne) := by
  constructor
  · intro calls
    exact (cacheNoneTrace_nodup_go f calls []).1
  · intro calls
    cases calls with
    | nil => rfl
    | cons k ks =>
      rw [List.destutter_cons', cache1Trace_destutter_go f ks k (f k)]
      rfl

/-- An instance template as returned by `instanceTemplates.list` (util.py
lines 548-552).  Creation timestamps are modelled as naturals ordered the way
the RFC3339 timestamp strings are (lexicographic = chronological). -/
structure Tmpl where
  name : String
  creationTimestamp : Nat
  selfLink : String
  machineType : String
deriving DecidableEq, Repr

/-- The `properties` sub-object returned by `template_props`. -/
structure TmplProps where
  name : String
  url : String
  machineType : String
deriving DecidableEq, Repr

/-- util.py lines 559-563: `template_details.properties` with the top-level
`name` and `selfLink` copied into it before returning. -/
def tmplProperties (t : Tmpl) : TmplProps :=
  { name := t.name, url := t.selfLink, machineType := t.machineType }

/-- `pre` is a prefix of `s`, on the underlying character lists. -/
def strHasPref (pre s : String) : Bool :=
  pre.data.isPrefixOf s.data

/-- The server-side filter `(name={cluster_name}-{template}-*)` (util.py line
546): keeps the templates whose name starts with `<cluster>-<template>-`. -/
def tplFilter (cluster tmpl : String) (all : List Tmpl) : List Tmpl :=
  all.filter (fun t => strHasPref (cluster ++ "-" ++ tmpl ++ "-") t.name)

/-- util.py lines 542-563, `template_props`: list the matching templates,
sort them ascending by creation timestamp (`list.sort` is a stable ascending
sort, modelled by `insertionSort`), take the first, and fail when none
match. -/
def template_props (cluster tmpl : String) (all : List Tmpl) : Except String TmplProps :=
  match (tplFilter cluster tmpl all).insertionSort
      (fun a b => a.creationTimestamp ≤ b.creationTimestamp) with
  | [] => .error ("template " ++ tmpl ++ " not found")
  | t :: _ => .ok (tmplProperties t)

/-- C9: `template_props` considers exactly the templates named
`<clusterName>-<template>-*`; when none matches it fails with the
template-not-found error, and otherwise it returns the properties of a
matching template whose creation timestamp is least among all matches. -/
theorem template_props_spec (cluster tmpl : String) (all : List Tmpl) :
    (tplFilter cluster tmpl all = [] →
      template_props cluster tmpl all = .error ("template " ++ tmpl ++ " not found")) ∧
    (tplFilter cluster tmpl all ≠ [] →
      ∃ t ∈ tplFilter cluster tmpl all,
        template_props cluster tmpl all = .ok (tmplProperties t) ∧
        ∀ u ∈ tplFilter cluster tmpl all, t.creationTimestamp ≤ u.creationTimestamp) := by
  haveI hTot : IsTotal Tmpl (fun a b => a.creationTimestamp ≤ b.creationTimestamp) :=
    ⟨fun a b => Nat.le_total _ _⟩
  haveI hTrans : IsTrans Tmpl (fun a b => a.creationTimestamp ≤ b.creationTimestamp) :=
    ⟨fun _ _ _ hab hbc => Nat.le_trans hab hbc⟩
  constructor
  · intro h
    rw [template_props, h]
    rfl
  · intro h
    have hperm := List.perm_insertionSort
      (fun a b => a.creationTimestamp ≤ b.creationTimestamp) (tplFilter cluster tmpl all)
    have hsorted := List.sorted_insertionSort
      (fun a b => a.creationTimestamp ≤ b.creationTimestamp) (tplFilter cluster tmpl all)
    rcases hs : (tplFilter cluster tmpl all).insertionSort
        (fun a b => a.creationTimestamp ≤ b.creationTimestamp) with _ | ⟨t, rest⟩
    · rw [hs] at hperm
      exact absurd hperm.symm.eq_nil h
    · rw [hs] at hperm hsorted
      refine ⟨t, hperm.mem_iff.mp (List.mem_cons_self t rest), ?_, ?_⟩
      · rw [template_props, hs]
      · intro u hu
        rcases List.mem_cons.mp (hperm.mem_iff.mpr hu) with rfl | hu3
        · exact Nat.le_refl _
        · exact (List.sorted_cons.mp hsorted).1 u hu3

/-- C9 witness: a concrete catalogue with two matching templates (timestamps
5 and 3) and one non-matching template; the earliest match is returned. -/
theorem template_props_spec_witness :
    ∃ t ∈ tplFilter "clu" "tpl"
        [⟨"clu-tpl-a", 5, "link-a", "n1-standard-1"⟩,
         ⟨"clu-tpl-b", 3, "link-b", "n1-standard-2"⟩,
         ⟨"clu-xxx-c", 1, "link-c", "n1-standard-4"⟩],
      template_props "clu" "tpl"
          [⟨"clu-tpl-a", 5, "link-a", "n1-standard-1"⟩,
           ⟨"clu-tpl-b", 3, "link-b", "n1-standard-2"⟩,
           ⟨"clu-xxx-c", 1, "link-c", "n1-standard-4"⟩] = .ok (tmplProperties t) ∧
        ∀ u ∈ tplFilter "clu" "tpl"
            [⟨"clu-tpl-a", 5, "link-a", "n1-standard-1"⟩,
             ⟨"clu-tpl-b", 3, "link-b", "n1-standard-2"⟩,
             ⟨"clu-xxx-c", 1, "link-c", "n1-standard-4"⟩],
          t.creationTimestamp ≤ u.creationTimestamp :=
  (template_props_spec "clu" "tpl"
    [⟨"clu-tpl-a", 5, "link-a", "n1-standard-1"⟩,
     ⟨"clu-tpl-b", 3, "link-b", "n1-standard-2"⟩,
     ⟨"clu-xxx-c", 1, "link-c", "n1-standard-4"⟩]).2 (by decide)

/-- A `guestAccelerators` entry of a machine type (util.py lines 533-534). -/
structure Accel where
  guestAcceleratorType : String
  guestAcceleratorCount : Nat
deriving DecidableEq, Repr

/-- A machine type's details as consumed by `template_details` (util.py lines
519-537). -/
structure MachineTypeDetails where
  guestCpus : Nat
  memoryMb : Nat
  accelerators : List Accel
deriving DecidableEq, Repr

/-- The derived machine shape (util.py lines 520-537). -/
structure MachineShape where
  cpus : Nat
  memory : Int
  gpu_type : Option String
  gpu_count : Nat
deriving DecidableEq, Repr

/-- util.py lines 520-537: the machine shape derived by `template_details`:
cpus from `guestCpus`; memory = `memoryMb - (400 + 30 * (memoryMb // 1024))`
(Python integers, so the subtraction may go negative: Int); accelerator type
and count from the first accelerator entry only, defaulting to `None` / 0. -/
def machineShape (md : MachineTypeDetails) : MachineShape :=
  let gb := md.memoryMb / 1024
  { cpus := md.guestCpus
    memory := (md.memoryMb : Int) - (400 + 30 * (gb : Int))
    gpu_type := match md.accelerators with
      | a :: _ => some a.guestAcceleratorType
      | [] => none
    gpu_count := match md.accelerators with
      | a :: _ => a.guestAcceleratorCount
      | [] => 0 }

/-- Modelled from the spec: usable memory = reported memory − (400 + 30 ×
floor(reported memory / 1024)), in the unit of the reported memory (MB). -/
def specUsableMemory (m : Nat) : Int :=
  (m : Int) - (400 + 30 * ((m / 1024 : Nat) : Int))

/-- C10: the derived shape's memory equals the spec's overhead formula for
every reported memory value — in particular 8192 MB yields 7552 — and the
accelerator fields come from the first accelerator entry only, defaulting to
count 0 and absent type when there is none. -/
theorem machineShape_spec :
    (∀ md : MachineTypeDetails,
      (machineShape md).memory = specUsableMemory md.memoryMb ∧
      (machineShape md).gpu_type = md.accelerators.head?.map Accel.guestAcceleratorType ∧
      (machineShape md).gpu_count =
        ((md.accelerators.head?).map Accel.guestAcceleratorCount).getD 0) ∧
    machineShape ⟨4, 8192, []⟩ = ⟨4, 7552, none, 0⟩ ∧
    machineShape ⟨8, 8192, [⟨"nvidia-tesla-t4", 2⟩, ⟨"nvidia-tesla-v100", 4⟩]⟩ =
      ⟨8, 7552, some "nvidia-tesla-t4", 2⟩ := by
  refine ⟨?_, rfl, rfl⟩
  intro md
  rcases md with ⟨c, m, acc⟩
  cases acc <;> simp [machineShape, specUsableMemory]

/-- The character class `[^\s\-]` of the `name` and `partition` groups
(util.py line 368). -/
def isNameChar (c : Char) : Bool :=
  !c.isWhitespace && c != '-'

/-- The character class `\S` of the `template` group (util.py line 368). -/
def isTmplChar (c : Char) : Bool :=
  !c.isWhitespace

/-- Greedy `(?P<partition>[^\s\-]+)-(?P<index>\d+)` at the head of `v`
(util.py line 368).  The partition is forced to be the maximal run of
name characters: any shorter candidate would have to be followed by the
literal hyphen, but the character after it is a name character, never a
hyphen.  The index is the maximal digit run, nothing following it. -/
def matchPI (v : List Char) : Option (List Char × List Char) :=
  let p := v.takeWhile isNameChar
  let d := v.dropWhile isNameChar
  if p.isEmpty then none
  else if d.head? = some '-' then
    let i := d.tail.takeWhile Char.isDigit
    if i.isEmpty then none else some (p, i)
  else none

/-- Greedy `(?P<template>\S+)-` followed by `matchPI` (util.py line 368).
The backtracking engine tries template candidates longest first, so the
hyphen split chosen is the rightmost one whose left part is a nonempty
all-non-whitespace run and whose right part starts a partition-index match;
`acc` is the text already committed to the template. -/
def tmplMatch (acc : List Char) : List Char → Option (List Char × List Char × List Char)
  | [] => none
  | c :: rest =>
    (tmplMatch (acc ++ [c]) rest).or
      (if c = '-' ∧ acc ≠ [] ∧ acc.all isTmplChar = true then
        (matchPI rest).map (fun pi => (acc, pi.1, pi.2))
      else none)

/-- util.py lines 368-369 and 423: `node_parts_regex.match(node_name)`.
`re.match` anchors at the start only, so any string with a matching prefix
is accepted.  The name group is forced to be the maximal run of name
characters (a shorter candidate would need to be followed by a hyphen,
impossible inside the run). -/
def nodePartsList (cs : List Char) :
    Option (List Char × List Char × List Char × List Char) :=
  let n := cs.takeWhile isNameChar
  let d := cs.dropWhile isNameChar
  if n.isEmpty then none
  else if d.head? = some '-' then
    (tmplMatch [] d.tail).map (fun tpi => (n, tpi.1, tpi.2.1, tpi.2.2))
  else none

/-- util.py lines 420-426, `Lookup._node_parts`: the four named groups on a
match, the invalid-node-name exception otherwise. -/
def node_parts (s : String) : Except String (String × String × String × String) :=
  (nodePartsList s.data).elim
    (.error ("node name " ++ s ++ " is not valid"))
    (fun g => .ok (String.mk g.1, String.mk g.2.1, String.mk g.2.2.1, String.mk g.2.2.2))


lemma option_some_or {α : Type} (a : α) (o : Option α) : (some a).or o = some a := rfl

lemma nameChar_ne_hyphen {c : Char} (h : isNameChar c = true) : ¬(c = '-') := by
  intro hc
  rw [hc] at h
  exact absurd h (by decide)

lemma digit_ne_hyphen {c : Char} (h : c.isDigit = true) : ¬(c = '-') := by
  intro hc
  rw [hc] at h
  exact absurd h (by decide)

lemma takeWhile_all_of {f : Char → Bool} :
    ∀ (l : List Char), (∀ c ∈ l, f c = true) → l.takeWhile f = l := by
  intro l h
  exact List.takeWhile_eq_self_iff.mpr h

lemma takeWhile_append_stop {f : Char → Bool} :
    ∀ (l : List Char) (a : Char) (r : List Char),
      (∀ c ∈ l, f c = true) → f a = false → (l ++ a :: r).takeWhile f = l := by
  intro l
  induction l with
  | nil =>
    intro a r _ ha
    simp [List.takeWhile, ha]
  | cons c l ih =>
    intro a r h ha
    have hc : f c = true := h c (List.mem_cons_self c l)
    simp only [List.cons_append, List.takeWhile, hc, List.append_eq]
    rw [ih a r (fun x hx => h x (List.mem_cons_of_mem c hx)) ha]

lemma dropWhile_append_stop {f : Char → Bool} :
    ∀ (l : List Char) (a : Char) (r : List Char),
      (∀ c ∈ l, f c = true) → f a = false → (l ++ a :: r).dropWhile f = a :: r := by
  intro l
  induction l with
  | nil =>
    intro a r _ ha
    simp [List.dropWhile, ha]
  | cons c l ih =>
    intro a r h ha
    have hc : f c = true := h c (List.mem_cons_self c l)
    simp only [List.cons_append, List.dropWhile, hc, List.append_eq]
    exact ih a r (fun x hx => h x (List.mem_cons_of_mem c hx)) ha

lemma matchPI_full (p i : List Char) (hp : p ≠ []) (hpa : ∀ c ∈ p, isNameChar c = true)
    (hi : i ≠ []) (hia : ∀ c ∈ i, c.isDigit = true) :
    matchPI (p ++ '-' :: i) = some (p, i) := by
  simp only [matchPI]
  rw [takeWhile_append_stop p '-' i hpa (by decide),
      dropWhile_append_stop p '-' i hpa (by decide)]
  rw [if_neg (by simpa [List.isEmpty_iff] using hp)]
  rw [List.head?_cons, if_pos rfl, List.tail_cons, takeWhile_all_of i hia,
      if_neg (by simpa [List.isEmpty_iff] using hi)]

lemma matchPI_isSome (p i rest : List Char) (hp : p ≠ []) (hpa : ∀ c ∈ p, isNameChar c = true)
    (hi : i ≠ []) (hia : ∀ c ∈ i, c.isDigit = true) :
    (matchPI (p ++ '-' :: (i ++ rest))).isSome = true := by
  simp only [matchPI]
  rw [takeWhile_append_stop p '-' _ hpa (by decide),
      dropWhile_append_stop p '-' _ hpa (by decide)]
  rw [if_neg (by simpa [List.isEmpty_iff] using hp)]
  rw [List.head?_cons, if_pos rfl, List.tail_cons]
  rcases i with _ | ⟨c, i⟩
  · exact absurd rfl hi
  · have hc : c.isDigit = true := hia c (List.mem_cons_self c i)
    simp [List.takeWhile, hc]

lemma matchPI_none_digits (i : List Char) (hia : ∀ c ∈ i, c.isDigit = true) :
    matchPI i = none := by
  simp only [matchPI]
  by_cases he : (i.takeWhile isNameChar).isEmpty
  · rw [if_pos he]
  · rw [if_neg he]
    rcases hd : i.dropWhile isNameChar with _ | ⟨c, r⟩
    · simp
    · have hcm : c ∈ i := (List.dropWhile_sublist isNameChar).subset (hd ▸ List.mem_cons_self c r)
      have hc : ¬(c = '-') := digit_ne_hyphen (hia c hcm)
      rw [List.head?_cons]
      rw [if_neg (by simpa using hc)]

lemma matchPI_sound {v p i : List Char} (h : matchPI v = some (p, i)) :
    ∃ r, v = p ++ '-' :: (i ++ r) ∧ p ≠ [] ∧ (∀ c ∈ p, isNameChar c = true) ∧
      i ≠ [] ∧ (∀ c ∈ i, c.isDigit = true) := by
  simp only [matchPI] at h
  by_cases he : (v.takeWhile isNameChar).isEmpty
  · rw [if_pos he] at h
    exact absurd h (by simp)
  · rw [if_neg he] at h
    rcases hd : v.dropWhile isNameChar with _ | ⟨c, r⟩
    · rw [hd] at h
      exact absurd h (by simp)
    · rw [hd, List.head?_cons, List.tail_cons] at h
      by_cases hc : (some c = some '-')
      · rw [if_pos hc] at h
        by_cases hie : (r.takeWhile Char.isDigit).isEmpty
        · rw [if_pos hie] at h
          exact absurd h (by simp)
        · rw [if_neg hie] at h
          have hpv : v.takeWhile isNameChar = p := by
            have h2 := congrArg (fun o => Option.map Prod.fst o) h
            simpa using h2
          have hiv : r.takeWhile Char.isDigit = i := by
            have h2 := congrArg (fun o => Option.map Prod.snd o) h
            simpa using h2
          have hcc : c = '-' := by simpa using hc
          subst hcc
          refine ⟨r.dropWhile Char.isDigit, ?_, ?_, ?_, ?_, ?_⟩
          · have hv : v = v.takeWhile isNameChar ++ ('-' :: r) := by
              rw [← hd]
              exact (List.takeWhile_append_dropWhile isNameChar v).symm
            rw [hv, ← hpv, ← hiv, List.takeWhile_append_dropWhile]
          · intro hnil
            exact he (by rw [hpv, hnil]; rfl)
          · intro x hx
            exact List.mem_takeWhile_imp (hpv ▸ hx)
          · intro hnil
            exact hie (by rw [hiv, hnil]; rfl)
          · intro x hx
            exact List.mem_takeWhile_imp (hiv ▸ hx)
      · rw [if_neg hc] at h
        exact absurd h (by simp)

lemma tmplMatch_no_hyphen :
    ∀ (u : List Char), (∀ c ∈ u, ¬(c = '-')) → ∀ acc, tmplMatch acc u = none := by
  intro u
  induction u with
  | nil => intro _ acc; rfl
  | cons c rest ih =>
    intro h acc
    have hc : ¬(c = '-') := h c (List.mem_cons_self c rest)
    show ((tmplMatch (acc ++ [c]) rest).or _) = none
    rw [ih (fun x hx => h x (List.mem_cons_of_mem c hx)) (acc ++ [c]), Option.none_or]
    rw [if_neg (fun hand => hc hand.1)]

lemma tmplMatch_after_sep (p i : List Char) (hpa : ∀ c ∈ p, isNameChar c = true)
    (hia : ∀ c ∈ i, c.isDigit = true) :
    ∀ acc, tmplMatch acc (p ++ '-' :: i) = none := by
  induction p with
  | nil =>
    intro acc
    show ((tmplMatch (acc ++ ['-']) i).or _) = none
    rw [tmplMatch_no_hyphen i (fun x hx => digit_ne_hyphen (hia x hx)) (acc ++ ['-']),
        Option.none_or, matchPI_none_digits i hia, Option.map_none']
    by_cases hcond : ('-' : Char) = '-' ∧ acc ≠ [] ∧ acc.all isTmplChar = true
    · rw [if_pos hcond]
    · rw [if_neg hcond]
  | cons c p ih =>
    intro acc
    have hc : ¬(c = '-') :=
      nameChar_ne_hyphen (hpa c (List.mem_cons_self c p))
    show ((tmplMatch (acc ++ [c]) (p ++ '-' :: i)).or _) = none
    rw [ih (fun x hx => hpa x (List.mem_cons_of_mem c hx)) (acc ++ [c]), Option.none_or]
    rw [if_neg (fun hand => hc hand.1)]

lemma tmplMatch_full (p i : List Char) (hp : p ≠ []) (hpa : ∀ c ∈ p, isNameChar c = true)
    (hi : i ≠ []) (hia : ∀ c ∈ i, c.isDigit = true) :
    ∀ (t acc : List Char), acc ++ t ≠ [] → (∀ c ∈ acc ++ t, isTmplChar c = true) →
      tmplMatch acc (t ++ '-' :: (p ++ '-' :: i)) = some (acc ++ t, p, i) := by
  intro t
  induction t with
  | nil =>
    intro acc hne hall
    rw [List.append_nil] at hne hall
    show ((tmplMatch (acc ++ ['-']) (p ++ '-' :: i)).or _) = _
    rw [tmplMatch_after_sep p i hpa hia (acc ++ ['-']), Option.none_or]
    rw [if_pos ⟨rfl, hne, List.all_eq_true.mpr hall⟩]
    rw [matchPI_full p i hp hpa hi hia, Option.map_some']
    rw [List.append_nil]
  | cons c t ih =>
    intro acc hne hall
    show ((tmplMatch (acc ++ [c]) (t ++ '-' :: (p ++ '-' :: i))).or _) = _
    have hall2 : ∀ x ∈ (acc ++ [c]) ++ t, isTmplChar x = true := by
      rw [List.append_assoc]
      exact hall
    rw [ih (acc ++ [c]) (by simp) hall2, option_some_or, List.append_assoc]
    rfl

lemma tmplMatch_isSome (p i rest : List Char) (hp : p ≠ []) (hpa : ∀ c ∈ p, isNameChar c = true)
    (hi : i ≠ []) (hia : ∀ c ∈ i, c.isDigit = true) :
    ∀ (t acc : List Char), acc ++ t ≠ [] → (∀ c ∈ acc ++ t, isTmplChar c = true) →
      (tmplMatch acc (t ++ '-' :: (p ++ '-' :: (i ++ rest)))).isSome = true := by
  intro t
  induction t with
  | nil =>
    intro acc hne hall
    rw [List.append_nil] at hne hall
    show ((tmplMatch (acc ++ ['-']) (p ++ '-' :: (i ++ rest))).or _).isSome = true
    rw [if_pos ⟨rfl, hne, List.all_eq_true.mpr hall⟩, Option.isSome_or]
    have hm := matchPI_isSome p i rest hp hpa hi hia
    rcases hx : matchPI (p ++ '-' :: (i ++ rest)) with _ | pi0
    · rw [hx] at hm
      exact absurd hm (by simp)
    · simp
  | cons c t ih =>
    intro acc hne hall
    show ((tmplMatch (acc ++ [c]) (t ++ '-' :: (p ++ '-' :: (i ++ rest)))).or _).isSome = true
    have hall2 : ∀ x ∈ (acc ++ [c]) ++ t, isTmplChar x = true := by
      rw [List.append_assoc]
      exact hall
    rw [Option.isSome_or, ih (acc ++ [c]) (by simp) hall2]
    rfl

lemma tmplMatch_sound :
    ∀ (u acc t p i : List Char), tmplMatch acc u = some (t, p, i) →
      ∃ w r, t = acc ++ w ∧ u = w ++ '-' :: (p ++ '-' :: (i ++ r)) ∧
        t ≠ [] ∧ (∀ c ∈ t, isTmplChar c = true) ∧
        p ≠ [] ∧ (∀ c ∈ p, isNameChar c = true) ∧
        i ≠ [] ∧ (∀ c ∈ i, c.isDigit = true) := by
  intro u
  induction u with
  | nil =>
    intro acc t p i h
    exact absurd h (by simp [tmplMatch])
  | cons c rest ih =>
    intro acc t p i h
    rw [show tmplMatch acc (c :: rest) = (tmplMatch (acc ++ [c]) rest).or
      (if c = '-' ∧ acc ≠ [] ∧ acc.all isTmplChar = true then
        (matchPI rest).map (fun pi => (acc, pi.1, pi.2))
      else none) from rfl] at h
    rcases Option.or_eq_some.mp h with hrec | ⟨hrec, hif⟩
    · obtain ⟨w, r, ht, hrest, props⟩ := ih (acc ++ [c]) t p i hrec
      refine ⟨c :: w, r, ?_, ?_, props⟩
      · rw [ht, List.append_assoc]
        rfl
      · rw [hrest]
        rfl
    · by_cases hcond : c = '-' ∧ acc ≠ [] ∧ acc.all isTmplChar = true
      · rw [if_pos hcond] at hif
        rcases hmp : matchPI rest with _ | pi0
        · rw [hmp, Option.map_none'] at hif
          exact absurd hif (by simp)
        · rw [hmp, Option.map_some'] at hif
          have hacc : acc = t ∧ pi0.1 = p ∧ pi0.2 = i := by
            have h1 := congrArg (fun o => Option.map (fun x => x.1) o) hif
            have h2 := congrArg (fun o => Option.map (fun x => x.2.1) o) hif
            have h3 := congrArg (fun o => Option.map (fun x => x.2.2) o) hif
            simp at h1 h2 h3
            exact ⟨h1, h2, h3⟩
          obtain ⟨rfl, hp1, hi1⟩ := hacc
          obtain ⟨r, hrest, hpne, hpa, hine, hia⟩ := matchPI_sound
            (show matchPI rest = some (p, i) by rw [hmp, ← hp1, ← hi1])
          refine ⟨[], r, (List.append_nil _).symm, ?_, hcond.2.1, ?_, hpne, hpa, hine, hia⟩
          · rw [List.nil_append, hcond.1, hrest]
          · exact fun x hx => List.all_eq_true.mp hcond.2.2 x hx
      · rw [if_neg hcond] at hif
        exact absurd hif (by simp)

/-- Modelled from the spec (§3 NodeIdentifier and §8): the whole node name is
`<name>-<template>-<partition>-<index>`, with `name` and `partition` nonempty
and free of hyphens and whitespace, `template` a nonempty non-whitespace
token, and `index` a nonempty digit string making up the entire remainder. -/
def SpecFullDecomp (s : String) : Prop :=
  ∃ n t p i : List Char,
    n ≠ [] ∧ (∀ c ∈ n, isNameChar c = true) ∧
    t ≠ [] ∧ (∀ c ∈ t, isTmplChar c = true) ∧
    p ≠ [] ∧ (∀ c ∈ p, isNameChar c = true) ∧
    i ≠ [] ∧ (∀ c ∈ i, c.isDigit = true) ∧
    s.data = n ++ '-' :: (t ++ '-' :: (p ++ '-' :: i))

/-- Modelled from the spec's grammar, relaxed to a prefix: some prefix of the
node name is `<name>-<template>-<partition>-<index>` (index a nonempty digit
run), with arbitrary text following. -/
def SpecPrefixDecomp (s : String) : Prop :=
  ∃ n t p i rest : List Char,
    n ≠ [] ∧ (∀ c ∈ n, isNameChar c = true) ∧
    t ≠ [] ∧ (∀ c ∈ t, isTmplChar c = true) ∧
    p ≠ [] ∧ (∀ c ∈ p, isNameChar c = true) ∧
    i ≠ [] ∧ (∀ c ∈ i, c.isDigit = true) ∧
    s.data = n ++ '-' :: (t ++ '-' :: (p ++ '-' :: (i ++ rest)))

lemma nodePartsList_full (n t p i : List Char)
    (hn : n ≠ []) (hna : ∀ c ∈ n, isNameChar c = true)
    (ht : t ≠ []) (hta : ∀ c ∈ t, isTmplChar c = true)
    (hp : p ≠ []) (hpa : ∀ c ∈ p, isNameChar c = true)
    (hi : i ≠ []) (hia : ∀ c ∈ i, c.isDigit = true) :
    nodePartsList (n ++ '-' :: (t ++ '-' :: (p ++ '-' :: i))) = some (n, t, p, i) := by
  simp only [nodePartsList]
  rw [takeWhile_append_stop n '-' _ hna (by decide),
      dropWhile_append_stop n '-' _ hna (by decide)]
  rw [if_neg (by simpa [List.isEmpty_iff] using hn)]
  rw [List.head?_cons, if_pos rfl, List.tail_cons]
  rw [tmplMatch_full p i hp hpa hi hia t [] (by simpa using ht) (by simpa using hta)]
  rfl

lemma nodePartsList_isSome (n t p i rest : List Char)
    (hn : n ≠ []) (hna : ∀ c ∈ n, isNameChar c = true)
    (ht : t ≠ []) (hta : ∀ c ∈ t, isTmplChar c = true)
    (hp : p ≠ []) (hpa : ∀ c ∈ p, isNameChar c = true)
    (hi : i ≠ []) (hia : ∀ c ∈ i, c.isDigit = true) :
    (nodePartsList (n ++ '-' :: (t ++ '-' :: (p ++ '-' :: (i ++ rest))))).isSome = true := by
  simp only [nodePartsList]
  rw [takeWhile_append_stop n '-' _ hna (by decide),
      dropWhile_append_stop n '-' _ hna (by decide)]
  rw [if_neg (by simpa [List.isEmpty_iff] using hn)]
  rw [List.head?_cons, if_pos rfl, List.tail_cons]
  obtain ⟨g, hg⟩ := Option.isSome_iff_exists.mp
    (tmplMatch_isSome p i rest hp hpa hi hia t [] (by simpa using ht) (by simpa using hta))
  rw [hg]
  rfl

lemma nodePartsList_sound {cs n t p i : List Char}
    (h : nodePartsList cs = some (n, t, p, i)) :
    ∃ rest, cs = n ++ '-' :: (t ++ '-' :: (p ++ '-' :: (i ++ rest))) ∧
      n ≠ [] ∧ (∀ c ∈ n, isNameChar c = true) ∧
      t ≠ [] ∧ (∀ c ∈ t, isTmplChar c = true) ∧
      p ≠ [] ∧ (∀ c ∈ p, isNameChar c = true) ∧
      i ≠ [] ∧ (∀ c ∈ i, c.isDigit = true) := by
  simp only [nodePartsList] at h
  by_cases he : (cs.takeWhile isNameChar).isEmpty
  · rw [if_pos he] at h
    exact absurd h (by simp)
  · rw [if_neg he] at h
    rcases hd : cs.dropWhile isNameChar with _ | ⟨c, d⟩
    · rw [hd] at h
      exact absurd h (by simp)
    · rw [hd, List.head?_cons, List.tail_cons] at h
      by_cases hc : (some c = some '-')
      · rw [if_pos hc] at h
        rcases htm : tmplMatch [] d with _ | tpi
        · rw [htm, Option.map_none'] at h
          exact absurd h (by simp)
        · rw [htm, Option.map_some'] at h
          have hproj : cs.takeWhile isNameChar = n ∧ tpi.1 = t ∧ tpi.2.1 = p ∧ tpi.2.2 = i := by
            have h1 := congrArg (fun o => Option.map (fun x => x.1) o) h
            have h2 := congrArg (fun o => Option.map (fun x => x.2.1) o) h
            have h3 := congrArg (fun o => Option.map (fun x => x.2.2.1) o) h
            have h4 := congrArg (fun o => Option.map (fun x => x.2.2.2) o) h
            simp at h1 h2 h3 h4
            exact ⟨h1, h2, h3, h4⟩
          obtain ⟨hn1, ht1, hp1, hi1⟩ := hproj
          have htm2 : tmplMatch [] d = some (t, p, i) := by
            rw [htm, ← ht1, ← hp1, ← hi1]
          obtain ⟨w, rest, hw, hdrest, htne, hta, hpne, hpa, hine, hia⟩ :=
            tmplMatch_sound d [] t p i htm2
          rw [List.nil_append] at hw
          have hcc : c = '-' := by simpa using hc
          refine ⟨rest, ?_, ?_, ?_, htne, hta, hpne, hpa, hine, hia⟩
          · have hv : cs = cs.takeWhile isNameChar ++ (c :: d) := by
              rw [← hd]
              exact (List.takeWhile_append_dropWhile isNameChar cs).symm
            rw [hv, hn1, hcc, hdrest, ← hw]
          · intro hnil
            exact he (by rw [hn1, hnil]; rfl)
          · intro x hx
            exact List.mem_takeWhile_imp (hn1 ▸ hx)
      · rw [if_neg hc] at h
        exact absurd h (by simp)

/-- C8: every node name that fully matches the grammar
`name-template-partition-index` (name and partition hyphen- and
whitespace-free, template any non-whitespace token, index a digit string
filling the rest) is parsed into exactly those four fields, and rejoining
them with hyphens reproduces the original string. -/
theorem node_parts_grammar_roundtrip (s : String) (n t p i : List Char)
    (hn : n ≠ []) (hna : ∀ c ∈ n, isNameChar c = true)
    (ht : t ≠ []) (hta : ∀ c ∈ t, isTmplChar c = true)
    (hp : p ≠ []) (hpa : ∀ c ∈ p, isNameChar c = true)
    (hi : i ≠ []) (hia : ∀ c ∈ i, c.isDigit = true)
    (hs : s.data = n ++ '-' :: (t ++ '-' :: (p ++ '-' :: i))) :
    node_parts s = .ok (String.mk n, String.mk t, String.mk p, String.mk i) ∧
    String.mk n ++ "-" ++ String.mk t ++ "-" ++ String.mk p ++ "-" ++ String.mk i = s := by
  have h1 : nodePartsList s.data = some (n, t, p, i) := by
    rw [hs]
    exact nodePartsList_full n t p i hn hna ht hta hp hpa hi hia
  constructor
  · simp only [node_parts]
    rw [h1]
    rfl
  · apply String.ext
    show n ++ ['-'] ++ t ++ ['-'] ++ p ++ ['-'] ++ i = s.data
    rw [hs]
    simp [List.append_assoc]

/-- C8 witness: the concrete node name `web-tmpl-x-part-3`, whose template
token itself contains a hyphen, parses into (web, tmpl-x, part, 3), and the
rejoined fields reproduce the name. -/
theorem node_parts_grammar_roundtrip_witness :
    node_parts "web-tmpl-x-part-3" = .ok ("web", "tmpl-x", "part", "3") ∧
    "web" ++ "-" ++ "tmpl-x" ++ "-" ++ "part" ++ "-" ++ "3" = "web-tmpl-x-part-3" := by
  have h := node_parts_grammar_roundtrip "web-tmpl-x-part-3"
    "web".data "tmpl-x".data "part".data "3".data
    (by decide) (by decide) (by decide) (by decide)
    (by decide) (by decide) (by decide) (by decide) (by decide)
  exact h

/-- C7: counterexample to the claim as stated.  The node name
`web-tmpl-part-3x` does not decompose under the grammar (its tail after the
last hyphen, `3x`, is not a digit string), yet `_node_parts` accepts it:
`re.match` only anchors at the start, so the matching prefix
`web-tmpl-part-3` is taken and the trailing `x` is silently dropped,
truncating the index field to `3`. -/
theorem node_parts_accepts_malformed :
    node_parts "web-tmpl-part-3x" = .ok ("web", "tmpl", "part", "3") ∧
    ¬ SpecFullDecomp "web-tmpl-part-3x" := by
  refine ⟨rfl, ?_⟩
  rintro ⟨n, t, p, i, hn, hna, ht, hta, hp, hpa, hi, hia, hs⟩
  have hlast : ("web-tmpl-part-3x".data).getLast? = some 'x' := rfl
  rw [hs] at hlast
  have hre : n ++ '-' :: (t ++ '-' :: (p ++ '-' :: i)) =
      (n ++ '-' :: (t ++ '-' :: (p ++ ['-']))) ++ i := by
    simp [List.append_assoc]
  rw [hre, List.getLast?_append_of_ne_nil _ hi] at hlast
  have hx : 'x' ∈ i := List.mem_of_mem_getLast? (by rw [hlast]; exact rfl)
  exact absurd (hia 'x' hx) (by decide)

/-- C7 amended: `_node_parts` fails with the invalid-node-name error exactly
on the node names no prefix of which decomposes as
`name-template-partition-index`; a name with a decomposable strict prefix
(e.g. trailing characters after the numeric index) is accepted, with the
trailing characters silently dropped. -/
theorem node_parts_error_iff (s : String) :
    node_parts s = .error ("node name " ++ s ++ " is not valid") ↔ ¬ SpecPrefixDecomp s := by
  constructor
  · intro herr hspec
    obtain ⟨n, t, p, i, rest, hn, hna, ht, hta, hp, hpa, hi, hia, hs⟩ := hspec
    have hsome : (nodePartsList s.data).isSome = true := by
      rw [hs]
      exact nodePartsList_isSome n t p i rest hn hna ht hta hp hpa hi hia
    obtain ⟨g, hg⟩ := Option.isSome_iff_exists.mp hsome
    simp only [node_parts, hg] at herr
    exact absurd herr (by simp)
  · intro hnone
    rcases hm : nodePartsList s.data with _ | g
    · simp only [node_parts, hm]
      rfl
    · exfalso
      have hm2 : nodePartsList s.data = some (g.1, g.2.1, g.2.2.1, g.2.2.2) := by
        rw [hm]
      obtain ⟨rest, hs, hn, hna, ht, hta, hp, hpa, hi, hia⟩ := nodePartsList_sound hm2
      exact hnone ⟨g.1, g.2.1, g.2.2.1, g.2.2.2, rest,
        hn, hna, ht, hta, hp, hpa, hi, hia, hs⟩
